import Mathlib

/-
Verification of the arbpp ball-arithmetic wrapper (src/src/arbpp.hpp).

The `arb` class stores a backend ball (`m_arb`: midpoint + radius) together
with a precision `m_prec`.  The backend (Arb/MPFR) is an external library:
its values are modelled by the extended-rational type `MVal`, its ball
primitives (`arb_add`, `arb_sub_si`, ...) are abstracted into a `Backend`
record of functions, and the few backend primitives whose behaviour the
spec pins down exactly (`arb_neg`, the exact `arb_set_*` constructors,
`arb_add_error_arf`) are modelled concretely from the spec.  The policy
layer of arbpp.hpp (precision propagation, validation order, error
classification, string-conversion formatting) is transcribed directly.
-/

namespace Arbpp

/-- Extended value modelling an MPFR / arf floating-point datum: a finite
rational, a signed infinity, or NaN. -/
inductive MVal where
  | fin (q : ℚ)
  | posInf
  | negInf
  | nan
deriving DecidableEq

/-- Negation of an extended value (sign flip; NaN is preserved). -/
def mvneg : MVal → MVal
  | .fin q => .fin (-q)
  | .posInf => .negInf
  | .negInf => .posInf
  | .nan => .nan

/-- Exact subtraction on extended values (used to model exact backend
subtraction of nearby representable values). -/
def mvsub : MVal → MVal → MVal
  | .fin a, .fin b => .fin (a - b)
  | .nan, _ => .nan
  | _, .nan => .nan
  | .posInf, .posInf => .nan
  | .negInf, .negInf => .nan
  | .posInf, _ => .posInf
  | .negInf, _ => .negInf
  | .fin _, .posInf => .negInf
  | .fin _, .negInf => .posInf

/-- Exact addition on extended values (reference backend instance only). -/
def mvadd : MVal → MVal → MVal
  | .fin a, .fin b => .fin (a + b)
  | .nan, _ => .nan
  | _, .nan => .nan
  | .posInf, .negInf => .nan
  | .negInf, .posInf => .nan
  | .posInf, _ => .posInf
  | .negInf, _ => .negInf
  | .fin _, .posInf => .posInf
  | .fin _, .negInf => .negInf

/-- C++ comparison `v <= 0.` on a double: false for NaN, true for -inf. -/
def mvLeZero : MVal → Bool
  | .fin q => decide (q ≤ 0)
  | .posInf => false
  | .negInf => true
  | .nan => false

/-- Test for NaN, modelling `std::isnan`. -/
def mvIsNan : MVal → Bool
  | .nan => true
  | _ => false

/-- Test modelling `mpfr_number_p`: true exactly for finite values. -/
def mpfr_number_p : MVal → Bool
  | .fin _ => true
  | _ => false

/-- Backend ball datum: midpoint (arf) and radius (mag), i.e. the contents
of the `arb_struct` field `m_arb`. -/
structure BallData where
  mid : MVal
  rad : MVal
deriving DecidableEq

/-- The arbpp `arb` class state: the backend ball `m_arb` and the
precision member `m_prec`. -/
structure arb where
  m_arb : BallData
  m_prec : Int
deriving DecidableEq

/-- Default precision, in bits (detail::base_arb<>::default_prec). -/
def default_prec : Int := 53

/-- Static method arb::get_default_precision(). -/
def get_default_precision : Int := default_prec

/-- Default-constructed arb: zero midpoint, zero radius, default
precision (arb::arb()). -/
def arb_default : arb := ⟨⟨.fin 0, .fin 0⟩, default_prec⟩

/-- Modelled from the spec: the backend negation primitive `arb_neg`
(not part of this repository) flips the midpoint sign and leaves the
(unsigned) radius untouched. -/
def arb_neg (d : BallData) : BallData := ⟨mvneg d.mid, d.rad⟩

/-- Modelled from the spec: the backend exact-set primitive `arb_set_si`
(construction from a signed integer is exact, radius zero). -/
def construct_si (n : Int) : BallData := ⟨.fin (n : ℚ), .fin 0⟩

/-- Modelled from the spec: the backend exact-set primitive `arb_set_ui`
(construction from an unsigned integer is exact, radius zero). -/
def construct_ui (n : Nat) : BallData := ⟨.fin (n : ℚ), .fin 0⟩

/-- Modelled from the spec: the exact chain `arf_set_d` + `arb_set_arf`
(construction from a floating-point value is exact bit-for-bit, radius
zero).  The double is already embedded as an `MVal`. -/
def construct_arf (x : MVal) : BallData := ⟨x, .fin 0⟩

/-- Modelled from the spec: the backend primitive `arb_add_error_arf`
widens the radius by the given non-negative error; exact in this model
(the real backend may round the magnitude upward); an infinite operand
yields an infinite radius. -/
def magAdd (r e : MVal) : MVal :=
  match r, e with
  | .fin a, .fin b => .fin (a + b)
  | _, _ => .posInf

/-- Abstract backend: the trusted Arb ball primitives used by the
arithmetic layer.  Each function takes the operand data and the working
precision passed by the wrapper. -/
structure Backend where
  arb_add : BallData → BallData → Int → BallData
  arb_add_si : BallData → Int → Int → BallData
  arb_add_ui : BallData → Nat → Int → BallData
  arb_add_arf : BallData → MVal → Int → BallData
  arb_sub : BallData → BallData → Int → BallData
  arb_sub_si : BallData → Int → Int → BallData
  arb_sub_ui : BallData → Nat → Int → BallData
  arb_sub_arf : BallData → MVal → Int → BallData
  arb_mul : BallData → BallData → Int → BallData
  arb_mul_si : BallData → Int → Int → BallData
  arb_mul_ui : BallData → Nat → Int → BallData
  arb_mul_arf : BallData → MVal → Int → BallData

/-- Reference backend instance with exact rational midpoint arithmetic;
used only to evaluate concrete examples (any `Backend` satisfies the
precision-propagation theorems). -/
def refBackend : Backend where
  arb_add := fun x y _ => ⟨mvadd x.mid y.mid, mvadd x.rad y.rad⟩
  arb_add_si := fun x n _ => ⟨mvadd x.mid (.fin (n : ℚ)), x.rad⟩
  arb_add_ui := fun x n _ => ⟨mvadd x.mid (.fin (n : ℚ)), x.rad⟩
  arb_add_arf := fun x v _ => ⟨mvadd x.mid v, x.rad⟩
  arb_sub := fun x y _ => ⟨mvsub x.mid y.mid, mvadd x.rad y.rad⟩
  arb_sub_si := fun x n _ => ⟨mvsub x.mid (.fin (n : ℚ)), x.rad⟩
  arb_sub_ui := fun x n _ => ⟨mvsub x.mid (.fin (n : ℚ)), x.rad⟩
  arb_sub_arf := fun x v _ => ⟨mvsub x.mid v, x.rad⟩
  arb_mul := fun x y _ => ⟨x.mid, y.rad⟩
  arb_mul_si := fun x _ _ => x
  arb_mul_ui := fun x _ _ => x
  arb_mul_arf := fun x _ _ => x

/-- Negation method arb::negate(): `arb_neg` in place; `m_prec` is not
touched. -/
def negate (a : arb) : arb := ⟨arb_neg a.m_arb, a.m_prec⟩

/-- Unary minus arb::operator-(): copy, then negate the copy. -/
def unary_minus (a : arb) : arb := negate a

/-- Unary plus arb::operator+(): returns a copy of this. -/
def unary_plus (a : arb) : arb := a

/-- Static arb::binary_add(const arb &, const arb &): result precision is
the larger operand precision, `arb_add` runs at that precision. -/
def binary_add (B : Backend) (a b : arb) : arb :=
  let p := if a.m_prec > b.m_prec then a.m_prec else b.m_prec
  ⟨B.arb_add a.m_arb b.m_arb p, p⟩

/-- Static arb::binary_add(const arb &, const T &) for signed integers. -/
def binary_add_si (B : Backend) (a : arb) (n : Int) : arb :=
  ⟨B.arb_add_si a.m_arb n a.m_prec, a.m_prec⟩

/-- Static arb::binary_add(const T &, const arb &) for signed integers:
delegates to the arb-first overload. -/
def binary_add_si_rev (B : Backend) (n : Int) (a : arb) : arb :=
  binary_add_si B a n

/-- Static arb::binary_add(const arb &, const T &) for unsigned integers. -/
def binary_add_ui (B : Backend) (a : arb) (n : Nat) : arb :=
  ⟨B.arb_add_ui a.m_arb n a.m_prec, a.m_prec⟩

/-- Static arb::binary_add(const T &, const arb &) for unsigned integers. -/
def binary_add_ui_rev (B : Backend) (n : Nat) (a : arb) : arb :=
  binary_add_ui B a n

/-- Static arb::binary_add(const arb &, const T &) for floating-point:
the double is set exactly into an arf, then `arb_add_arf` runs at the
ball's precision. -/
def binary_add_arf (B : Backend) (a : arb) (x : MVal) : arb :=
  ⟨B.arb_add_arf a.m_arb x a.m_prec, a.m_prec⟩

/-- Static arb::binary_add(const T &, const arb &) for floating-point. -/
def binary_add_arf_rev (B : Backend) (x : MVal) (a : arb) : arb :=
  binary_add_arf B a x

/-- Static arb::binary_sub(const arb &, const arb &). -/
def binary_sub (B : Backend) (a b : arb) : arb :=
  let p := if a.m_prec > b.m_prec then a.m_prec else b.m_prec
  ⟨B.arb_sub a.m_arb b.m_arb p, p⟩

/-- Static arb::binary_sub(const arb &, const T &) for signed integers. -/
def binary_sub_si (B : Backend) (a : arb) (n : Int) : arb :=
  ⟨B.arb_sub_si a.m_arb n a.m_prec, a.m_prec⟩

/-- Static arb::binary_sub(const T &, const arb &) for signed integers:
computes `binary_sub(a, n)` and then negates the result in place. -/
def binary_sub_si_rev (B : Backend) (n : Int) (a : arb) : arb :=
  negate (binary_sub_si B a n)

/-- Static arb::binary_sub(const arb &, const T &) for unsigned integers. -/
def binary_sub_ui (B : Backend) (a : arb) (n : Nat) : arb :=
  ⟨B.arb_sub_ui a.m_arb n a.m_prec, a.m_prec⟩

/-- Static arb::binary_sub(const T &, const arb &) for unsigned integers:
subtract, then negate. -/
def binary_sub_ui_rev (B : Backend) (n : Nat) (a : arb) : arb :=
  negate (binary_sub_ui B a n)

/-- Static arb::binary_sub(const arb &, const T &) for floating-point. -/
def binary_sub_arf (B : Backend) (a : arb) (x : MVal) : arb :=
  ⟨B.arb_sub_arf a.m_arb x a.m_prec, a.m_prec⟩

/-- Static arb::binary_sub(const T &, const arb &) for floating-point:
subtract, then negate. -/
def binary_sub_arf_rev (B : Backend) (x : MVal) (a : arb) : arb :=
  negate (binary_sub_arf B a x)

/-- Static arb::binary_mul(const arb &, const arb &). -/
def binary_mul (B : Backend) (a b : arb) : arb :=
  let p := if a.m_prec > b.m_prec then a.m_prec else b.m_prec
  ⟨B.arb_mul a.m_arb b.m_arb p, p⟩

/-- Static arb::binary_mul(const arb &, const T &) for signed integers. -/
def binary_mul_si (B : Backend) (a : arb) (n : Int) : arb :=
  ⟨B.arb_mul_si a.m_arb n a.m_prec, a.m_prec⟩

/-- Static arb::binary_mul(const T &, const arb &) for signed integers. -/
def binary_mul_si_rev (B : Backend) (n : Int) (a : arb) : arb :=
  binary_mul_si B a n

/-- Static arb::binary_mul(const arb &, const T &) for unsigned integers. -/
def binary_mul_ui (B : Backend) (a : arb) (n : Nat) : arb :=
  ⟨B.arb_mul_ui a.m_arb n a.m_prec, a.m_prec⟩

/-- Static arb::binary_mul(const T &, const arb &) for unsigned integers. -/
def binary_mul_ui_rev (B : Backend) (n : Nat) (a : arb) : arb :=
  binary_mul_ui B a n

/-- Static arb::binary_mul(const arb &, const T &) for floating-point. -/
def binary_mul_arf (B : Backend) (a : arb) (x : MVal) : arb :=
  ⟨B.arb_mul_arf a.m_arb x a.m_prec, a.m_prec⟩

/-- Static arb::binary_mul(const T &, const arb &) for floating-point. -/
def binary_mul_arf_rev (B : Backend) (x : MVal) (a : arb) : arb :=
  binary_mul_arf B a x

/-- Method arb::in_place_add(const arb &): the receiver's precision is
raised to the maximum first, then `arb_add` runs at that precision. -/
def in_place_add (B : Backend) (a other : arb) : arb :=
  let p := if other.m_prec > a.m_prec then other.m_prec else a.m_prec
  ⟨B.arb_add a.m_arb other.m_arb p, p⟩

/-- Method arb::in_place_add(const T &) for signed integers: runs at the
receiver's current precision, which is unchanged. -/
def in_place_add_si (B : Backend) (a : arb) (n : Int) : arb :=
  ⟨B.arb_add_si a.m_arb n a.m_prec, a.m_prec⟩

/-- Method arb::in_place_add(const T &) for unsigned integers. -/
def in_place_add_ui (B : Backend) (a : arb) (n : Nat) : arb :=
  ⟨B.arb_add_ui a.m_arb n a.m_prec, a.m_prec⟩

/-- Method arb::in_place_add(const T &) for floating-point. -/
def in_place_add_arf (B : Backend) (a : arb) (x : MVal) : arb :=
  ⟨B.arb_add_arf a.m_arb x a.m_prec, a.m_prec⟩

/-- Generic assignment arb::operator=(const T &) for signed integers:
resets `m_prec` to the default and rebuilds the ball exactly from the
native value (the previous state of `a` is discarded). -/
def assign_si (a : arb) (n : Int) : arb :=
  { a with m_prec := default_prec, m_arb := construct_si n }

/-- Generic assignment arb::operator=(const T &) for unsigned integers. -/
def assign_ui (a : arb) (n : Nat) : arb :=
  { a with m_prec := default_prec, m_arb := construct_ui n }

/-- Generic assignment arb::operator=(const T &) for floating-point. -/
def assign_arf (a : arb) (x : MVal) : arb :=
  { a with m_prec := default_prec, m_arb := construct_arf x }

/-- Method arb::swap: exchanges both `m_arb` and `m_prec` of the two
objects; returns (new this, new other). -/
def arb_swap (a other : arb) : arb × arb := (other, a)

/-- Move constructor arb::arb(arb &&): initialises a fresh default arb
and swaps it with the source; returns (new object, moved-from object). -/
def move_ctor (other : arb) : arb × arb :=
  arb_swap arb_default other

/-- Move assignment arb::operator=(arb &&): swaps this with the source;
returns (new this, moved-from source). -/
def move_assign (a other : arb) : arb × arb :=
  arb_swap a other

/-- Errors thrown by the wrapper, tagged by the C++ exception type and
the exact message used at the throw site. -/
inductive ArbError where
  | invalidArgument (msg : String)
  | underflowError (msg : String)
deriving DecidableEq

/-- Modelled from the spec: MPFR_PREC_MIN, the backend lower precision
bound (the spec's precision invariant is the range [1, backend-defined
bound]). -/
def MPFR_PREC_MIN : Int := 1

/-- Modelled from the spec: MPFR_PREC_MAX, the backend-defined upper
precision bound. -/
def MPFR_PREC_MAX : Int := 2 ^ 62

/-- Method arb::set_precision: validates the requested precision against
the bounds and only then writes `m_prec`; on failure the error escapes
before any state is mutated. -/
def set_precision (a : arb) (prec : Int) : Except ArbError arb :=
  if prec < 1 ∨ prec < MPFR_PREC_MIN ∨ prec > MPFR_PREC_MAX then
    .error (.invalidArgument ("invalid precision value"))
  else
    .ok ⟨a.m_arb, prec⟩

/-- State of the receiver after a call to arb::set_precision: unchanged
when the call throws, updated when it returns. -/
def set_precision_run (a : arb) (prec : Int) : arb :=
  match set_precision a prec with
  | .ok b => b
  | .error _ => a

/-- Method arb::add_error(double): rejects NaN and any err <= 0 before
touching the ball, otherwise widens the radius through
`arb_add_error_arf`. -/
def add_error (a : arb) (err : MVal) : Except ArbError arb :=
  if mvIsNan err || mvLeZero err then
    .error (.invalidArgument ("an error value must be positive and not NaN"))
  else
    .ok ⟨⟨a.m_arb.mid, magAdd a.m_arb.rad err⟩, a.m_prec⟩

/-- Outcome of the backend call `mpfr_strtofr(m, str, &endptr, 10, RNDN)`
on the input string at the requested precision: the parsed value, the
ternary rounding indicator (negative: result below the exact value,
positive: above, zero: exact), the number of characters consumed
(`endptr - str.c_str()`), and whether the MPFR underflow flag was set. -/
structure strtofr_out where
  val : MVal
  ternary : Int
  consumed : Nat
  uflow : Bool
deriving DecidableEq

/-- Constructor arb::arb(const std::string &, long): transcription of the
constructor body, with the backend parse outcome `P` and the backend
primitives `mpfr_nextabove` (`na`), `mpfr_nextbelow` (`nb`) and
`mpfr_sub` at the working precision (`sub`, returning the difference and
the resulting underflow flag) passed as arguments.  The checks appear in
source order: invalid string (nothing consumed, or not fully consumed),
parse underflow, precision validation via set_precision, then — for a
finite inexactly-rounded value — the radius is the distance from the
midpoint to the adjacent representable value on the side away from the
rounding direction, with an underflow check on that subtraction. -/
def arb_from_string (str : String) (prec : Int) (P : strtofr_out)
    (na nb : MVal → MVal) (sub : MVal → MVal → MVal × Bool) :
    Except ArbError arb :=
  if P.consumed = 0 ∨ P.consumed ≠ str.length then
    .error (.invalidArgument ("invalid string input"))
  else if P.uflow then
    .error (.underflowError ("underflow in conversion from string"))
  else if prec < 1 ∨ prec < MPFR_PREC_MIN ∨ prec > MPFR_PREC_MAX then
    .error (.invalidArgument ("invalid precision value"))
  else if P.ternary ≠ 0 ∧ mpfr_number_p P.val = true then
    let tmp0 := if P.ternary < 0 then na P.val else nb P.val
    let s := if P.ternary < 0 then sub tmp0 P.val else sub P.val tmp0
    if s.2 then
      .error (.underflowError ("underflow in the calculation of the radius"))
    else
      .ok ⟨⟨P.val, s.1⟩, prec⟩
  else
    .ok ⟨⟨P.val, .fin 0⟩, prec⟩

/-- Exact backend subtraction with no underflow: the contract of
`mpfr_sub` on the distance between two adjacent representable values
(always exactly representable), used to instantiate `arb_from_string`. -/
def exactSub (a b : MVal) : MVal × Bool := (mvsub a b, false)

/-- The digit table used by arb::is_digit. -/
def digits_list : List Char := ['0', '1', '2', '3', '4', '5', '6', '7', '8', '9']

/-- Static arb::is_digit: membership in the digit table. -/
def is_digit (c : Char) : Bool := digits_list.contains c

/-- The radix-point insertion step of arb::print_fmpr: find the first
digit of the string and insert '.' right after it; `none` when the
string has no digit (e.g. an MPFR NaN or infinity spelling). -/
def insert_radix : List Char → Option (List Char)
  | [] => none
  | c :: rest =>
    if is_digit c then some (c :: '.' :: rest)
    else (insert_radix rest).map (fun r => c :: r)

/-- Modelled from the spec: the extreme representable boundary of the
backend decimal exponent type (`std::numeric_limits<mpfr_exp_t>::min()`),
at which the decrement-by-one normalisation would overflow. -/
def MPFR_EXP_MIN : Int := -(2 ^ 62)

/-- Static arb::print_fmpr: takes the backend digit-extraction outcome
(`none` models a null pointer from `mpfr_get_str`, otherwise the digit
characters and the decimal exponent) and the zero test `mpfr_sgn == 0`.
A radix point is inserted after the first digit; the exponent is
decremented to account for the insertion (failing at the boundary value)
and an 'e' marker is appended when the value is nonzero and the adjusted
exponent is nonzero. -/
def print_fmpr (out : Option (List Char × Int)) (is_zero : Bool) :
    Except ArbError (List Char) :=
  match out with
  | none => .error (.invalidArgument ("error while converting arb to string"))
  | some (s, exp) =>
    match insert_radix s with
    | none => .ok s
    | some s2 =>
      if exp = MPFR_EXP_MIN then
        .error (.invalidArgument ("error while converting arb to string"))
      else if exp - 1 ≠ 0 ∧ is_zero = false then
        .ok (s2 ++ ('e' :: (toString (exp - 1)).toList))
      else
        .ok s2

/-- Static arb::print_arf: converts the midpoint through the backend
chain arf -> fmpr -> mpfr at the given precision (the chain is abstracted
as the function `get` from precision to digit-extraction outcome) and
formats it with print_fmpr. -/
def print_arf (get : Int → Option (List Char × Int)) (is_zero : Bool)
    (prec : Int) : Except ArbError (List Char) :=
  print_fmpr (get prec) is_zero

/-- Static arb::print_mag: same pipeline for the radius magnitude. -/
def print_mag (get : Int → Option (List Char × Int)) (is_zero : Bool)
    (prec : Int) : Except ArbError (List Char) :=
  print_fmpr (get prec) is_zero

/-- Stream operator operator<<(std::ostream &, const arb &): prints
'(', the midpoint, the plus-minus separator, the radius, ')'; both
halves are converted at the ball's own precision `a.m_prec`. -/
def stream_arb (a : arb) (midGet radGet : Int → Option (List Char × Int))
    (mid_zero rad_zero : Bool) : Except ArbError (List Char) :=
  match print_arf midGet mid_zero a.m_prec with
  | .error e => .error e
  | .ok ms =>
    match print_mag radGet rad_zero a.m_prec with
    | .error e => .error e
    | .ok rs =>
      .ok ('(' :: ms ++ (' ' :: '+' :: '/' :: '-' :: ' ' :: rs) ++ [')'])

/-- The precision-selection conditional used by the binary operators
computes the maximum of the two precisions. -/
theorem ite_gt_max (a b : Int) : (if a > b then a else b) = max a b := by
  split <;> omega

/-- C2: the binary operators on two balls return a result whose precision
is the maximum of the operand precisions, with the backend operation
executed at that precision; mixed ball/native binary operators, in either
operand order and for all three native families, return a result with the
ball operand's precision. -/
theorem binary_ops_precision (B : Backend) (a b : arb) (n : Int) (u : Nat)
    (x : MVal) :
    (binary_add B a b).m_prec = max a.m_prec b.m_prec
    ∧ (binary_add B a b).m_arb = B.arb_add a.m_arb b.m_arb (max a.m_prec b.m_prec)
    ∧ (binary_sub B a b).m_prec = max a.m_prec b.m_prec
    ∧ (binary_sub B a b).m_arb = B.arb_sub a.m_arb b.m_arb (max a.m_prec b.m_prec)
    ∧ (binary_mul B a b).m_prec = max a.m_prec b.m_prec
    ∧ (binary_mul B a b).m_arb = B.arb_mul a.m_arb b.m_arb (max a.m_prec b.m_prec)
    ∧ (binary_add_si B a n).m_prec = a.m_prec
    ∧ (binary_add_si_rev B n a).m_prec = a.m_prec
    ∧ (binary_add_ui B a u).m_prec = a.m_prec
    ∧ (binary_add_ui_rev B u a).m_prec = a.m_prec
    ∧ (binary_add_arf B a x).m_prec = a.m_prec
    ∧ (binary_add_arf_rev B x a).m_prec = a.m_prec
    ∧ (binary_sub_si B a n).m_prec = a.m_prec
    ∧ (binary_sub_si_rev B n a).m_prec = a.m_prec
    ∧ (binary_sub_ui B a u).m_prec = a.m_prec
    ∧ (binary_sub_ui_rev B u a).m_prec = a.m_prec
    ∧ (binary_sub_arf B a x).m_prec = a.m_prec
    ∧ (binary_sub_arf_rev B x a).m_prec = a.m_prec
    ∧ (binary_mul_si B a n).m_prec = a.m_prec
    ∧ (binary_mul_si_rev B n a).m_prec = a.m_prec
    ∧ (binary_mul_ui B a u).m_prec = a.m_prec
    ∧ (binary_mul_ui_rev B u a).m_prec = a.m_prec
    ∧ (binary_mul_arf B a x).m_prec = a.m_prec
    ∧ (binary_mul_arf_rev B x a).m_prec = a.m_prec := by
  refine ⟨?_, ?_, ?_, ?_, ?_, ?_, rfl, rfl, rfl, rfl, rfl, rfl, rfl, rfl,
    rfl, rfl, rfl, rfl, rfl, rfl, rfl, rfl, rfl, rfl⟩ <;>
    simp only [binary_add, binary_sub, binary_mul, ite_gt_max]

/-- C5: for every native numeric value (signed, unsigned or
floating-point) and every ball, the native-minus-ball subtraction is the
ball-minus-native subtraction followed by negation, so its midpoint is
the negation of the latter's midpoint, its radius is the same, and its
precision is the ball operand's precision; in particular the sign is
correct when subtracting from zero. -/
theorem native_minus_ball (B : Backend) (a : arb) (n : Int) (u : Nat)
    (x : MVal) :
    binary_sub_si_rev B n a = negate (binary_sub_si B a n)
    ∧ (binary_sub_si_rev B n a).m_arb.mid = mvneg (binary_sub_si B a n).m_arb.mid
    ∧ (binary_sub_si_rev B n a).m_arb.rad = (binary_sub_si B a n).m_arb.rad
    ∧ (binary_sub_si_rev B n a).m_prec = a.m_prec
    ∧ binary_sub_ui_rev B u a = negate (binary_sub_ui B a u)
    ∧ (binary_sub_ui_rev B u a).m_arb.mid = mvneg (binary_sub_ui B a u).m_arb.mid
    ∧ (binary_sub_ui_rev B u a).m_arb.rad = (binary_sub_ui B a u).m_arb.rad
    ∧ (binary_sub_ui_rev B u a).m_prec = a.m_prec
    ∧ binary_sub_arf_rev B x a = negate (binary_sub_arf B a x)
    ∧ (binary_sub_arf_rev B x a).m_arb.mid = mvneg (binary_sub_arf B a x).m_arb.mid
    ∧ (binary_sub_arf_rev B x a).m_arb.rad = (binary_sub_arf B a x).m_arb.rad
    ∧ (binary_sub_arf_rev B x a).m_prec = a.m_prec
    ∧ (binary_sub_si_rev refBackend 0 ⟨⟨.fin 5, .fin 0⟩, 53⟩).m_arb.mid
        = .fin (-5) := by
  refine ⟨rfl, rfl, rfl, rfl, rfl, rfl, rfl, rfl, rfl, rfl, rfl, rfl, ?_⟩
  simp only [binary_sub_si_rev, binary_sub_si, negate, arb_neg, refBackend,
    mvsub, mvneg]
  norm_num

/-- C8: negate flips the midpoint sign and leaves the radius and
precision unchanged; applying negate twice restores the original
midpoint; unary minus is a negated copy and unary plus an unmodified
copy. -/
theorem negate_involution (a : arb) :
    (negate (negate a)).m_arb.mid = a.m_arb.mid
    ∧ (negate a).m_arb.rad = a.m_arb.rad
    ∧ (negate a).m_prec = a.m_prec
    ∧ unary_minus a = negate a
    ∧ unary_plus a = a := by
  refine ⟨?_, rfl, rfl, rfl, rfl⟩
  rcases a with ⟨⟨mid, rad⟩, p⟩
  cases mid <;> simp [negate, arb_neg, mvneg]

/-- C9: generic assignment of a native numeric value always resets the
precision to the default 53 bits and rebuilds the ball with the exact
midpoint and zero radius, discarding the previous precision and radius —
whereas in-place arithmetic with a native operand keeps the receiver's
current precision. -/
theorem generic_assignment (B : Backend) (a : arb) (n : Int) (u : Nat)
    (x : MVal) :
    assign_si a n = ⟨⟨.fin (n : ℚ), .fin 0⟩, 53⟩
    ∧ assign_ui a u = ⟨⟨.fin (u : ℚ), .fin 0⟩, 53⟩
    ∧ assign_arf a x = ⟨⟨x, .fin 0⟩, 53⟩
    ∧ (in_place_add_si B a n).m_prec = a.m_prec
    ∧ (in_place_add_ui B a u).m_prec = a.m_prec
    ∧ (in_place_add_arf B a x).m_prec = a.m_prec :=
  ⟨rfl, rfl, rfl, rfl, rfl, rfl⟩

/-- C10 counterexample: after a move-assignment whose target held a
non-default state, the moved-from ball holds that previous target state,
which is not a default ball — refuting the claim that move-assignment
also leaves the moved-from object exactly default. -/
theorem move_assign_not_default :
    (move_assign ⟨⟨.fin 1, .fin 0⟩, 100⟩ ⟨⟨.fin 0, .fin 0⟩, 53⟩).2
      ≠ arb_default := by
  decide

/-- C10 (amended): move-construction initialises a fresh default ball
and swaps it with the source, so the moved-from ball is exactly a
default ball (midpoint 0, radius 0, precision 53) and the new object
holds the source's entire previous state; move-assignment instead swaps
the two objects, so its moved-from ball holds the assignment target's
previous state. -/
theorem move_semantics (other t o : arb) :
    move_ctor other = (other, arb_default)
    ∧ move_assign t o = (o, t) :=
  ⟨rfl, rfl⟩

/-- C3: evaluation of add_error at the boundary inputs: an error value of
exactly zero is rejected with the invalid-argument error (the code tests
err <= 0, contradicting the claim and the documented negative-or-NaN
condition), NaN and negative values are rejected, and a positive-infinite
error is accepted and produces an infinite radius. -/
theorem add_error_boundary (a : arb) :
    add_error a (.fin 0)
      = .error (.invalidArgument ("an error value must be positive and not NaN"))
    ∧ add_error a .nan
      = .error (.invalidArgument ("an error value must be positive and not NaN"))
    ∧ add_error a (.fin (-1))
      = .error (.invalidArgument ("an error value must be positive and not NaN"))
    ∧ add_error a .posInf = .ok ⟨⟨a.m_arb.mid, .posInf⟩, a.m_prec⟩ := by
  refine ⟨rfl, rfl, ?_, ?_⟩
  · simp [add_error, mvIsNan, mvLeZero]
  · have h : magAdd a.m_arb.rad .posInf = .posInf := by
      cases a.m_arb.rad <;> rfl
    simp [add_error, mvIsNan, mvLeZero, h]

/-- C6: set_precision fails with the invalid-precision error for every
precision outside [1, MPFR_PREC_MAX] and leaves the receiver's state
(midpoint, radius and previously set precision) unchanged on failure;
for every precision inside the range it succeeds, setting the precision
to the requested value and keeping the ball data. -/
theorem set_precision_validation (a : arb) (p : Int) :
    ((p < 1 ∨ p > MPFR_PREC_MAX) →
      set_precision a p = .error (.invalidArgument ("invalid precision value"))
      ∧ set_precision_run a p = a)
    ∧ ((1 ≤ p ∧ p ≤ MPFR_PREC_MAX) →
      set_precision a p = .ok ⟨a.m_arb, p⟩
      ∧ (set_precision_run a p).m_prec = p
      ∧ (set_precision_run a p).m_arb = a.m_arb) := by
  constructor
  · intro h
    have hg : p < 1 ∨ p < MPFR_PREC_MIN ∨ p > MPFR_PREC_MAX := by
      simp only [MPFR_PREC_MIN] at *
      omega
    have he : set_precision a p
        = .error (.invalidArgument ("invalid precision value")) := by
      simp only [set_precision, if_pos hg]
    exact ⟨he, by simp only [set_precision_run, he]⟩
  · intro h
    have hg : ¬(p < 1 ∨ p < MPFR_PREC_MIN ∨ p > MPFR_PREC_MAX) := by
      simp only [MPFR_PREC_MIN] at *
      omega
    have he : set_precision a p = .ok ⟨a.m_arb, p⟩ := by
      simp only [set_precision, if_neg hg]
    exact ⟨he, by simp only [set_precision_run, he], by simp only [set_precision_run, he]⟩

/-- C6 witness: set_precision rejects 0 leaving the state unchanged and
accepts 10. -/
theorem set_precision_validation_witness :
    set_precision arb_default 0
      = .error (.invalidArgument ("invalid precision value"))
    ∧ set_precision_run arb_default 0 = arb_default
    ∧ set_precision arb_default 10 = .ok ⟨⟨.fin 0, .fin 0⟩, 10⟩ := by
  have h0 := (set_precision_validation arb_default 0).1 (by left; decide)
  have h10 := (set_precision_validation arb_default 10).2
    ⟨by decide, by norm_num [MPFR_PREC_MAX]⟩
  exact ⟨h0.1, h0.2, h10.1⟩

/-- C4 counterexample: for the fully-consumed nonempty input string "1"
(exact parse, no underflow) with requested precision 0, the string
constructor fails with the invalid-precision error rather than
succeeding, refuting the claim that the constructor succeeds whenever
the string is valid and no parse underflow occurs. -/
theorem string_ctor_invalid_precision :
    ¬((1 : Nat) = 0 ∨ (1 : Nat) ≠ ("1").length)
    ∧ (strtofr_out.mk (.fin 1) 0 1 false).uflow = false
    ∧ arb_from_string ("1") 0 ⟨.fin 1, 0, 1, false⟩
        (fun v => v) (fun v => v) exactSub
      = .error (.invalidArgument ("invalid precision value")) := by
  refine ⟨by decide, rfl, ?_⟩
  rfl

/-- C4 (amended): construction from a decimal string fails with the
invalid-string-input error whenever the string is empty or not fully
consumed by the parse, and (for a valid string) fails with the underflow
error whenever the parse set the underflow flag; in all other cases —
provided the requested precision lies within the legal range and the
radius distance computation does not underflow — the constructor
succeeds in producing a ball. -/
theorem string_ctor_errors (str : String) (prec : Int) (P : strtofr_out)
    (na nb : MVal → MVal) (sub : MVal → MVal → MVal × Bool)
    (hcons : P.consumed ≤ str.length) :
    ((P.consumed = 0 ∨ P.consumed ≠ str.length)
      ↔ (str.length = 0 ∨ P.consumed ≠ str.length))
    ∧ ((str.length = 0 ∨ P.consumed ≠ str.length) →
        arb_from_string str prec P na nb sub
          = .error (.invalidArgument ("invalid string input")))
    ∧ (¬(str.length = 0 ∨ P.consumed ≠ str.length) → P.uflow = true →
        arb_from_string str prec P na nb sub
          = .error (.underflowError ("underflow in conversion from string")))
    ∧ (¬(str.length = 0 ∨ P.consumed ≠ str.length) → P.uflow = false →
        1 ≤ prec → prec ≤ MPFR_PREC_MAX →
        (∀ x y, (sub x y).2 = false) →
        ∃ b, arb_from_string str prec P na nb sub = .ok b) := by
  have hiff : (P.consumed = 0 ∨ P.consumed ≠ str.length)
      ↔ (str.length = 0 ∨ P.consumed ≠ str.length) := by omega
  refine ⟨hiff, ?_, ?_, ?_⟩
  · intro h
    have hg : P.consumed = 0 ∨ P.consumed ≠ str.length := hiff.mpr h
    simp only [arb_from_string, if_pos hg]
  · intro h hu
    have hg : ¬(P.consumed = 0 ∨ P.consumed ≠ str.length) := fun hc => h (hiff.mp hc)
    simp only [arb_from_string, if_neg hg, hu, if_true]
  · intro h hu hp1 hp2 hsub
    have hg : ¬(P.consumed = 0 ∨ P.consumed ≠ str.length) := fun hc => h (hiff.mp hc)
    have hpr : ¬(prec < 1 ∨ prec < MPFR_PREC_MIN ∨ prec > MPFR_PREC_MAX) := by
      simp only [MPFR_PREC_MIN]
      omega
    simp only [arb_from_string, if_neg hg, hu, Bool.false_eq_true, if_false,
      if_neg hpr]
    split
    · by_cases hc : P.ternary < 0
      · simp only [if_pos hc, hsub, Bool.false_eq_true, if_false]
        exact ⟨_, rfl⟩
      · simp only [if_neg hc, hsub, Bool.false_eq_true, if_false]
        exact ⟨_, rfl⟩
    · exact ⟨_, rfl⟩

/-- C4 witness: the empty string is rejected with the invalid-string
error, and the valid input "1" at precision 53 succeeds. -/
theorem string_ctor_errors_witness :
    arb_from_string ("") 53 ⟨.fin 0, 0, 0, false⟩
        (fun v => v) (fun v => v) exactSub
      = .error (.invalidArgument ("invalid string input"))
    ∧ ∃ b, arb_from_string ("1") 53 ⟨.fin 1, 0, 1, false⟩
        (fun v => v) (fun v => v) exactSub = .ok b := by
  have h1 := (string_ctor_errors ("") 53 ⟨.fin 0, 0, 0, false⟩
    (fun v => v) (fun v => v) exactSub (by decide)).2.1 (by decide)
  have h2 := (string_ctor_errors ("1") 53 ⟨.fin 1, 0, 1, false⟩
    (fun v => v) (fun v => v) exactSub (by decide)).2.2.2
    (by decide) rfl (by decide) (by norm_num [MPFR_PREC_MAX])
    (fun x y => rfl)
  exact ⟨h1, h2⟩

/-- C1: for construction from a decimal string at a requested precision
(on the path where the string is valid, the parse did not underflow and
the precision is legal), writing m for the finite parsed midpoint: if the
parse was exact the radius is exactly zero; if the parse rounded down
(negative ternary) the radius is the exact distance to the next
representable value above the midpoint, and if it rounded up (positive
ternary) the exact distance to the next representable value below, so
that any true value lying between the midpoint and that adjacent value is
contained in [midpoint - radius, midpoint + radius]; and if the distance
subtraction underflows the constructor fails with the underflow error. -/
theorem string_ctor_radius (str : String) (prec : Int) (P : strtofr_out)
    (na nb : MVal → MVal) (sub : MVal → MVal → MVal × Bool)
    (m mup mdown x : ℚ)
    (hstr : ¬(P.consumed = 0 ∨ P.consumed ≠ str.length))
    (huf : P.uflow = false)
    (hp1 : 1 ≤ prec) (hp2 : prec ≤ MPFR_PREC_MAX)
    (hval : P.val = .fin m) :
    (P.ternary = 0 →
      arb_from_string str prec P na nb sub = .ok ⟨⟨.fin m, .fin 0⟩, prec⟩)
    ∧ (P.ternary < 0 → na (.fin m) = .fin mup →
        sub (.fin mup) (.fin m) = (.fin (mup - m), false) →
        (arb_from_string str prec P na nb sub
            = .ok ⟨⟨.fin m, .fin (mup - m)⟩, prec⟩
         ∧ (m ≤ x → x ≤ mup →
             m - (mup - m) ≤ x ∧ x ≤ m + (mup - m))))
    ∧ (0 < P.ternary → nb (.fin m) = .fin mdown →
        sub (.fin m) (.fin mdown) = (.fin (m - mdown), false) →
        (arb_from_string str prec P na nb sub
            = .ok ⟨⟨.fin m, .fin (m - mdown)⟩, prec⟩
         ∧ (mdown ≤ x → x ≤ m →
             m - (m - mdown) ≤ x ∧ x ≤ m + (m - mdown))))
    ∧ (P.ternary < 0 → (sub (na (.fin m)) (.fin m)).2 = true →
        arb_from_string str prec P na nb sub
          = .error (.underflowError ("underflow in the calculation of the radius")))
    ∧ (0 < P.ternary → (sub (.fin m) (nb (.fin m))).2 = true →
        arb_from_string str prec P na nb sub
          = .error (.underflowError ("underflow in the calculation of the radius"))) := by
  have hpr : ¬(prec < 1 ∨ prec < MPFR_PREC_MIN ∨ prec > MPFR_PREC_MAX) := by
    simp only [MPFR_PREC_MIN]
    omega
  refine ⟨?_, ?_, ?_, ?_, ?_⟩
  · intro ht
    have hb : ¬(P.ternary ≠ 0 ∧ mpfr_number_p (MVal.fin m) = true) := by
      intro hc
      exact hc.1 ht
    simp only [arb_from_string, if_neg hstr, huf, Bool.false_eq_true, if_false,
      if_neg hpr, hval, if_neg hb]
  · intro ht hna hsub
    have hb : P.ternary ≠ 0 ∧ mpfr_number_p (MVal.fin m) = true :=
      ⟨by omega, rfl⟩
    constructor
    · simp only [arb_from_string, if_neg hstr, huf, Bool.false_eq_true, if_false,
        if_neg hpr, hval, if_pos hb, if_pos ht, hna, hsub]
    · intro hx1 hx2
      constructor <;> linarith
  · intro ht hnb hsub
    have hb : P.ternary ≠ 0 ∧ mpfr_number_p (MVal.fin m) = true :=
      ⟨by omega, rfl⟩
    have hlt : ¬(P.ternary < 0) := by omega
    constructor
    · simp only [arb_from_string, if_neg hstr, huf, Bool.false_eq_true, if_false,
        if_neg hpr, hval, if_pos hb, if_neg hlt, hnb, hsub]
    · intro hx1 hx2
      constructor <;> linarith
  · intro ht hsub
    have hb : P.ternary ≠ 0 ∧ mpfr_number_p (MVal.fin m) = true :=
      ⟨by omega, rfl⟩
    simp only [arb_from_string, if_neg hstr, huf, Bool.false_eq_true, if_false,
      if_neg hpr, hval, if_pos hb, if_pos ht, hsub, if_true]
  · intro ht hsub
    have hb : P.ternary ≠ 0 ∧ mpfr_number_p (MVal.fin m) = true :=
      ⟨by omega, rfl⟩
    have hlt : ¬(P.ternary < 0) := by omega
    simp only [arb_from_string, if_neg hstr, huf, Bool.false_eq_true, if_false,
      if_neg hpr, hval, if_pos hb, if_neg hlt, hsub, if_true]

/-- C1 witness: a parse that rounded down (ternary -1) from true value
one half to midpoint 0, with next representable value 1 above: the
constructor produces radius 1 - 0 and the enclosure contains one half. -/
theorem string_ctor_radius_witness :
    arb_from_string ("1") 53 ⟨.fin 0, -1, 1, false⟩
        (fun _ => .fin 1) (fun _ => .fin (-1)) exactSub
      = .ok ⟨⟨.fin 0, .fin (1 - 0)⟩, 53⟩
    ∧ (0 : ℚ) - (1 - 0) ≤ 1 / 2 ∧ (1 / 2 : ℚ) ≤ 0 + (1 - 0) := by
  have h := string_ctor_radius ("1") 53 ⟨.fin 0, -1, 1, false⟩
    (fun _ => .fin 1) (fun _ => .fin (-1)) exactSub
    0 1 (-1) (1 / 2) (by decide) rfl (by decide)
    (by norm_num [MPFR_PREC_MAX]) rfl
  have h2 := h.2.1 (by decide) rfl (by simp [exactSub, mvsub])
  exact ⟨h2.1, h2.2 (by norm_num) (by norm_num)⟩

/-- Helper: insert_radix places the radix point immediately after the
first digit of the string, leaving every other character in place. -/
theorem insert_radix_after_first_digit (pre : List Char) (d : Char)
    (post : List Char) (hpre : ∀ c ∈ pre, is_digit c = false)
    (hd : is_digit d = true) :
    insert_radix (pre ++ d :: post) = some (pre ++ d :: '.' :: post) := by
  induction pre with
  | nil =>
    simp only [List.nil_append, insert_radix, hd, if_true]
  | cons c rest ih =>
    have hc : is_digit c = false := hpre c (by simp)
    have hrest : ∀ x ∈ rest, is_digit x = false := fun x hx =>
      hpre x (by simp [hx])
    simp only [List.cons_append, insert_radix, hc, Bool.false_eq_true,
      if_false, List.append_eq, ih hrest]
    rfl

/-- C7: streaming a ball yields exactly '(' ++ midpoint ++ the
plus-minus separator ++ radius ++ ')', with both halves converted at the
ball's own precision; each half is formatted by inserting the radix
point immediately after the first digit of the backend digit string, an
'e' exponent marker being appended exactly when the value is nonzero and
the exponent adjusted for the insertion is nonzero; the conversion fails
with the invalid-argument error when the backend yields no digit string
or when the decimal exponent sits at the extreme boundary so the
adjustment would overflow. -/
theorem stream_format (a : arb) (midGet radGet : Int → Option (List Char × Int))
    (mz rz : Bool) :
    (∀ ms rs, print_fmpr (midGet a.m_prec) mz = .ok ms →
      print_fmpr (radGet a.m_prec) rz = .ok rs →
      stream_arb a midGet radGet mz rz
        = .ok ('(' :: ms ++ (' ' :: '+' :: '/' :: '-' :: ' ' :: rs) ++ [')']))
    ∧ (∀ iz, print_fmpr none iz
        = .error (.invalidArgument ("error while converting arb to string")))
    ∧ (∀ (pre : List Char) (d : Char) (post : List Char) (exp : Int) (iz : Bool),
        (∀ c ∈ pre, is_digit c = false) → is_digit d = true →
        (exp = MPFR_EXP_MIN →
          print_fmpr (some (pre ++ d :: post, exp)) iz
            = .error (.invalidArgument ("error while converting arb to string")))
        ∧ (exp ≠ MPFR_EXP_MIN → exp - 1 ≠ 0 → iz = false →
          print_fmpr (some (pre ++ d :: post, exp)) iz
            = .ok ((pre ++ d :: '.' :: post)
                ++ ('e' :: (toString (exp - 1)).toList)))
        ∧ (exp ≠ MPFR_EXP_MIN → (exp - 1 = 0 ∨ iz = true) →
          print_fmpr (some (pre ++ d :: post, exp)) iz
            = .ok (pre ++ d :: '.' :: post))) := by
  refine ⟨?_, fun iz => rfl, ?_⟩
  · intro ms rs h1 h2
    simp only [stream_arb, print_arf, print_mag, h1, h2]
  · intro pre d post exp iz hpre hd
    have hins := insert_radix_after_first_digit pre d post hpre hd
    refine ⟨?_, ?_, ?_⟩
    · intro he
      simp only [print_fmpr, hins, he, if_true]
    · intro he hexp hz
      have hcond : exp - 1 ≠ 0 ∧ iz = false := ⟨hexp, hz⟩
      simp only [print_fmpr, hins, if_neg he, if_pos hcond]
    · intro he hor
      have hcond : ¬(exp - 1 ≠ 0 ∧ iz = false) := by
        rcases hor with h | h
        · intro hc
          exact hc.1 h
        · intro hc
          rw [h] at hc
          exact absurd hc.2 (by simp)
      simp only [print_fmpr, hins, if_neg he, if_neg hcond]

/-- C7 witness: a ball printed from backend digit strings "425" (decimal
exponent 2, nonzero) and "0" (decimal exponent 1, zero value) streams as
the parenthesised pair of "4.25e1" and "0." joined by the plus-minus
separator. -/
theorem stream_format_witness :
    stream_arb arb_default (fun _ => some (['4', '2', '5'], 2))
        (fun _ => some (['0'], 1)) false true
      = .ok ['(', '4', '.', '2', '5', 'e', '1', ' ', '+', '/', '-', ' ',
          '0', '.', ')'] := by
  have h := stream_format arb_default (fun _ => some (['4', '2', '5'], 2))
    (fun _ => some (['0'], 1)) false true
  have hmid : print_fmpr (some (['4', '2', '5'], 2)) false
      = .ok ['4', '.', '2', '5', 'e', '1'] := by
    have := ((h.2.2 [] '4' ['2', '5'] 2 false (by intro c hc; cases hc) rfl).2.1
      (by decide) (by decide) rfl)
    simpa using this
  have hrad : print_fmpr (some (['0'], 1)) true = .ok ['0', '.'] := by
    have := ((h.2.2 [] '0' [] 1 true (by intro c hc; cases hc) rfl).2.2
      (by decide) (Or.inr rfl))
    simpa using this
  have := h.1 ['4', '.', '2', '5', 'e', '1'] ['0', '.'] hmid hrad
  simpa using this

end Arbpp
